import Mathlib

/-!
Verification of the finance-tracker payout ingestion and filtering logic.

The repository has two entry points that ingest a payout CSV into a
relational table (`src/upload_payouts.py`, the command-line uploader, and
`src/payout_dashboard.py`, the dashboard upload form), and a read-back side
in the dashboard that filters and charts the stored records.

Modelling conventions:
  * a Python string is a list of Unicode code points (`PyStr := List Nat`);
    `codes` converts a Lean string literal for concrete examples;
  * `str.lower()` is modelled on ASCII letters, `str.strip()` on the ASCII
    whitespace characters, matching the repository data (headers and cell
    values are ASCII);
  * `float(...)` is modelled for plain decimal notation (optional sign,
    digits, one optional decimal point), returning an exact rational;
  * a pandas dataframe is a header list plus rows of cells; `astype(float)`
    on a column either converts every cell or raises, which the model turns
    into `Except`;
  * the database write (`to_sql`) is a boolean outcome supplied as input;
    an ingestion error means the write is never reached.
-/

namespace FinanceTracker

/-- A Python string, as its list of Unicode code points. -/
abbrev PyStr := List Nat

/-- Code points of a Lean string literal, for concrete inputs. -/
def codes (s : String) : PyStr := s.data.map Char.toNat

/-- ASCII whitespace, the characters `str.strip()` removes on ASCII data. -/
def isWsChar (c : Nat) : Bool := c == 32 || c == 9 || c == 10 || c == 13 || c == 11 || c == 12

/-- One character of `str.lower()` on ASCII data. -/
def lowerChar (c : Nat) : Nat := if 65 ≤ c ∧ c ≤ 90 then c + 32 else c

/-- One character of `str.replace(" ", "_")`: space (32) becomes underscore (95). -/
def underscoreChar (c : Nat) : Nat := if c = 32 then 95 else c

/-- ASCII decimal digit test. -/
def isDigitChar (c : Nat) : Bool := decide (48 ≤ c ∧ c ≤ 57)

/-- Python `str.lower()` (ASCII model). -/
def pyLower (s : PyStr) : PyStr := s.map lowerChar

/-- Python `str.replace(" ", "_")`. -/
def spacesToUnderscores (s : PyStr) : PyStr := s.map underscoreChar

/-- Python `str.strip()`: drop leading and trailing whitespace. -/
def pyStrip (s : PyStr) : PyStr :=
  (((s.dropWhile isWsChar).reverse.dropWhile isWsChar)).reverse

/-- Split a string on a separator code point (like `str.split(sep)`). -/
def splitOnC (sep : Nat) : PyStr → List PyStr
  | [] => [[]]
  | c :: t =>
    let r := splitOnC sep t
    if c = sep then [] :: r
    else
      match r with
      | [] => [[c]]
      | h :: t2 => (c :: h) :: t2

/-- Value of a digit string (caller checks the digits). -/
def digitsVal (s : PyStr) : Nat := s.foldl (fun a c => a * 10 + (c - 48)) 0

/-- Unsigned part of Python `float(...)` on plain decimal notation:
digits with at most one decimal point, at least one digit overall. -/
def parseUFloat (s : PyStr) : Option ℚ :=
  match splitOnC 46 s with
  | [a] => if a ≠ [] ∧ a.all isDigitChar then some (digitsVal a : ℚ) else none
  | [a, b] =>
    if (a ++ b) ≠ [] ∧ a.all isDigitChar ∧ b.all isDigitChar then
      some ((digitsVal a : ℚ) + (digitsVal b : ℚ) / (10 : ℚ) ^ b.length)
    else none
  | _ => none

/-- Python `float(s)` on plain decimal notation: surrounding whitespace is
ignored, then an optional sign and an unsigned decimal.  `none` models the
`ValueError` that `astype(float)` raises on a non-numeric cell. -/
def parseFloat (s : PyStr) : Option ℚ :=
  match pyStrip s with
  | 43 :: r => parseUFloat r
  | 45 :: r => (parseUFloat r).map (fun q => -q)
  | t => parseUFloat t

/-- The numeric-cell cleaning of both currency steps:
`str.replace(",", "")` (44 is the comma) followed by `float(...)`. -/
def parseCurrency (s : PyStr) : Option ℚ := parseFloat (s.filter (fun c => c != 44))

/-- Substring test, `needle in hay` on Python strings. -/
def containsSub (needle : PyStr) : PyStr → Bool
  | [] => needle.isEmpty
  | c :: t => needle.isPrefixOf (c :: t) || containsSub needle t

/-- The header cleaning both entry points apply to every column label:
`c.strip().lower().replace(" ", "_")`. -/
def cleanHeader (s : PyStr) : PyStr := spacesToUnderscores (pyLower (pyStrip s))

/-- The fixed `df.rename(columns=...)` table shared by both entry points. -/
def renameHeader (s : PyStr) : PyStr :=
  if s = codes "email_id" then codes "email"
  else if s = codes "phone_number" then codes "phone"
  else if s = codes "langauge" then codes "language"
  else if s = codes "tds_applicability" then codes "tds_applicable"
  else s

/-- Full header normalization: clean, then rename. -/
def normalizeHeader (s : PyStr) : PyStr := renameHeader (cleanHeader s)

/-- Normalize a whole header list, as both entry points do to `df.columns`. -/
def normHeaders (hs : List PyStr) : List PyStr := (hs.map cleanHeader).map renameHeader

/-- A dataframe cell after type coercion: raw text, a parsed number, a
coerced boolean, a null (pandas `NaN`/`NaT`), or a parsed date. -/
inductive Cell where
  | text (s : PyStr)
  | num (q : ℚ)
  | boolv (b : Bool)
  | nullv
  | date (y mo d : Nat)
deriving DecidableEq

/-- Whether a cell carries a value only the Type Coercer's currency or
date steps can produce. -/
def Cell.isCoerced : Cell → Bool
  | .num _ => true
  | .date _ _ _ => true
  | _ => false

/-- A CSV as read by `pd.read_csv`: header labels plus rows of text cells. -/
structure RawFrame where
  headers : List PyStr
  rows : List (List PyStr)
deriving DecidableEq

/-- A dataframe mid-pipeline: header labels plus rows of typed cells. -/
structure Frame where
  headers : List PyStr
  rows : List (List Cell)
deriving DecidableEq

/-- Rows aligned with the header list, as `pd.read_csv` guarantees. -/
def RawFrame.aligned (rf : RawFrame) : Prop :=
  ∀ r ∈ rf.rows, r.length = rf.headers.length

/-- Rows aligned with the header list. -/
def Frame.aligned (fr : Frame) : Prop :=
  ∀ r ∈ fr.rows, r.length = fr.headers.length

instance (rf : RawFrame) : Decidable rf.aligned := by
  unfold RawFrame.aligned; infer_instance

instance (fr : Frame) : Decidable fr.aligned := by
  unfold Frame.aligned; infer_instance

/-- Replace the element at one position, leaving the rest unchanged. -/
def modifyAt (i : Nat) (f : Cell → Cell) : List Cell → List Cell
  | [] => []
  | c :: t =>
    match i with
    | 0 => f c :: t
    | n + 1 => c :: modifyAt n f t

/-- First position of a label in a header list (`df.columns` lookup). -/
def findIdx : List PyStr → PyStr → Option Nat
  | [], _ => none
  | h :: t, x => if h = x then some 0 else (findIdx t x).map (· + 1)

/-- Apply a cell transformation to one column of every row
(a pandas `df[col] = df[col].map(...)`-style assignment). -/
def mapCol (i : Nat) (f : Cell → Cell) (fr : Frame) : Frame :=
  ⟨fr.headers, fr.rows.map (modifyAt i f)⟩

/-- The cells at one column position, row by row. -/
def colCells (rows : List (List Cell)) (i : Nat) : List Cell :=
  rows.map (fun r => r.getD i Cell.nullv)

/-- The cells of a named column, `none` when the label is absent. -/
def Frame.col (fr : Frame) (h : PyStr) : Option (List Cell) :=
  (findIdx fr.headers h).map fun i => colCells fr.rows i

/-- `df[h] = v`: overwrite an existing column with a constant, or append a
new column holding that constant in every row. -/
def setColConst (h : PyStr) (v : Cell) (fr : Frame) : Frame :=
  match findIdx fr.headers h with
  | some i => ⟨fr.headers, fr.rows.map (modifyAt i (fun _ => v))⟩
  | none => ⟨fr.headers ++ [h], fr.rows.map (fun r => r ++ [v])⟩

/-- A freshly read CSV with both entry points' header treatment applied:
normalized labels, every cell still text. -/
def toCells (rf : RawFrame) : Frame :=
  ⟨normHeaders rf.headers, rf.rows.map (fun r => r.map Cell.text)⟩

/-- The shared boolean map on a cell string:
`.str.lower().map({"yes": True, "no": False})`; unmatched values become
pandas `NaN`, modelled as `none`. -/
def tdsOfStr (s : PyStr) : Option Bool :=
  if pyLower s = codes "yes" then some true
  else if pyLower s = codes "no" then some false
  else none

/-- The boolean coercion on a cell: text goes through `tdsOfStr`, anything
unmatched is the null cell.  This step never fails. -/
def coerceTds (c : Cell) : Cell :=
  match c with
  | .text s =>
    match tdsOfStr s with
    | some b => .boolv b
    | none => .nullv
  | _ => .nullv

/-- `astype(str).str.replace(",", "").astype(float)` on one cell: text is
cleaned and parsed, numbers round-trip, anything else fails. -/
def cellToFloat : Cell → Option ℚ
  | .text s => parseCurrency s
  | .num q => some q
  | _ => none

/-- How an ingestion attempt fails inside the dashboard `try` block. -/
inductive IngestError where
  | missingColumn
  | parseError
deriving DecidableEq

/-- Convert column `i` of every row to a parsed number, failing on the
first cell that does not parse (pandas `astype(float)` on the column). -/
def convertRows (i : Nat) : List (List Cell) → Option (List (List Cell))
  | [] => some []
  | r :: t =>
    match cellToFloat (r.getD i Cell.nullv) with
    | none => none
    | some q =>
      match convertRows i t with
      | none => none
      | some t2 => some (modifyAt i (fun _ => Cell.num q) r :: t2)

/-- One iteration of the dashboard numeric loop: skip an absent column,
otherwise convert it wholly or raise. -/
def coerceNumericCol (fr : Frame) (h : PyStr) : Except IngestError Frame :=
  match findIdx fr.headers h with
  | none => .ok fr
  | some i =>
    match convertRows i fr.rows with
    | none => .error .parseError
    | some rs => .ok ⟨fr.headers, rs⟩

/-- The dashboard numeric loop over its `numeric_columns` list. -/
def coerceNumericCols (fr : Frame) : List PyStr → Except IngestError Frame
  | [] => .ok fr
  | h :: t =>
    match coerceNumericCol fr h with
    | .error e => .error e
    | .ok fr2 => coerceNumericCols fr2 t

/-- The dashboard `numeric_columns` list. -/
def currencyCols : List PyStr :=
  [codes "amount", codes "tds", codes "payable", codes "net_payable"]

/-- Day-first date parse on a slash-separated date, the model of
`pd.to_datetime(..., dayfirst=True)` on the repository data:
`"05/04/2025"` is 5 April 2025.  Returns `(year, month, day)`. -/
def parseDateDF (s : PyStr) : Option (Nat × Nat × Nat) :=
  match splitOnC 47 s with
  | [d, mo, y] =>
    if d ≠ [] ∧ d.all isDigitChar ∧ mo ≠ [] ∧ mo.all isDigitChar ∧ y ≠ [] ∧ y.all isDigitChar then
      let dv := digitsVal d
      let mv := digitsVal mo
      if 1 ≤ dv ∧ dv ≤ 31 ∧ 1 ≤ mv ∧ mv ≤ 12 then some (digitsVal y, mv, dv) else none
    else none
  | _ => none

/-- Date parse attempt on one cell. -/
def cellDate : Cell → Option (Nat × Nat × Nat)
  | .text s => parseDateDF s
  | _ => none

/-- The dashboard `transaction_date` step: when the column exists and every
cell parses, convert the column to dates; when any cell fails,
`pd.to_datetime` raises, the bare `except` fires a warning and the column
is left unchanged.  Never fatal. -/
def dateCoerce (fr : Frame) : Frame :=
  match findIdx fr.headers (codes "transaction_date") with
  | none => fr
  | some i =>
    if fr.rows.all (fun r => (cellDate (r.getD i Cell.nullv)).isSome) then
      ⟨fr.headers,
        fr.rows.map (modifyAt i (fun c =>
          match cellDate c with
          | some (y, mo, d) => .date y mo d
          | none => c))⟩
    else fr

/-- The dashboard upload handler's transformation, raw CSV to the frame
handed to `to_sql`: normalize headers, coerce `tds_applicable`
(unconditional column access — a missing column raises `KeyError`), coerce
the numeric columns (fatal on a bad cell), convert `transaction_date`
(non-fatal), then stamp the month column. -/
def dashboardTransform (rf : RawFrame) (month : PyStr) : Except IngestError Frame :=
  match findIdx (toCells rf).headers (codes "tds_applicable") with
  | none => .error .missingColumn
  | some i =>
    match coerceNumericCols (mapCol i coerceTds (toCells rf)) currencyCols with
    | .error e => .error e
    | .ok f2 => .ok (setColConst (codes "month") (Cell.text month) (dateCoerce f2))

/-- The frame the dashboard writes to the `payouts` table; `none` when the
transformation raised, in which case `to_sql` is never reached. -/
def dashboardSink (rf : RawFrame) (month : PyStr) : Option Frame :=
  match dashboardTransform rf month with
  | .ok fr => some fr
  | .error _ => none

/-- Outcome of one dashboard upload form submission. -/
inductive DashOutcome where
  | inputError
  | uploadFailed (e : IngestError)
  | sinkFailed
  | written (fr : Frame)
deriving DecidableEq

/-- The dashboard submit handler: reject a missing file or empty month
before ingestion, then transform and write. -/
def dashboardSubmit (csv : Option RawFrame) (month : PyStr) (sinkOk : Bool) : DashOutcome :=
  match csv with
  | none => .inputError
  | some rf =>
    if month = [] then .inputError
    else
      match dashboardTransform rf month with
      | .error e => .uploadFailed e
      | .ok fr => if sinkOk then .written fr else .sinkFailed

/-- The CLI transformation (`upload_payouts.py`): normalize headers, map
`tds_applicable` only when the column exists, stamp the month column.  No
numeric or date coercion, so it is total. -/
def cliTransform (rf : RawFrame) (month : PyStr) : Frame :=
  setColConst (codes "month") (Cell.text month)
    (match findIdx (toCells rf).headers (codes "tds_applicable") with
     | some i => mapCol i coerceTds (toCells rf)
     | none => toCells rf)

/-- One invocation of the CLI script: environment, argv (script name
included), whether the CSV path exists, the CSV content, and whether the
database write succeeds. -/
structure CliInput where
  dbUrl : Option PyStr
  argv : List PyStr
  fileExists : Bool
  csv : RawFrame
  sinkOk : Bool

/-- Process exit code plus the frame committed to the store, if any. -/
structure CliResult where
  exitCode : Nat
  written : Option Frame
deriving DecidableEq

/-- The CLI script top to bottom: `sys.exit(1)` on a falsy
`SUPABASE_DB_URL`, on an argv length other than 3, and on a missing file;
then transform and attempt the write.  The `except` branch around `to_sql`
only prints, so the script ends with exit code 0 whether or not the write
succeeded. -/
def cliRun (i : CliInput) : CliResult :=
  match i.dbUrl with
  | none => ⟨1, none⟩
  | some url =>
    if url = [] then ⟨1, none⟩
    else if i.argv.length ≠ 3 then ⟨1, none⟩
    else if ¬ i.fileExists then ⟨1, none⟩
    else
      let fr := cliTransform i.csv (i.argv.getD 2 [])
      if i.sinkOk then ⟨0, some fr⟩ else ⟨0, none⟩

/-- One row of the stored `payouts` table as the dashboard reads it back.
Currency fields are rationals or null, `tds_applicable` a boolean or null,
`transaction_id` and `transaction_date` nullable text. -/
structure PayoutRecord where
  author_id : PyStr
  user_id : PyStr
  email : PyStr
  phone : PyStr
  language : PyStr
  amount : Option ℚ
  tds_applicable : Option Bool
  tds : Option ℚ
  payable : Option ℚ
  net_payable : Option ℚ
  name : PyStr
  account_number : PyStr
  ifsc : PyStr
  transaction_id : Option PyStr
  transaction_date : Option PyStr
  month : PyStr
deriving DecidableEq

/-- The free-text search predicate: the already-lowercased query is a
substring of the lowercased `user_id`, `email` or `author_id`. -/
def searchPred (q : PyStr) (r : PayoutRecord) : Bool :=
  containsSub q (pyLower r.user_id) || containsSub q (pyLower r.email)
    || containsSub q (pyLower r.author_id)

/-- The month multiselect predicate: `df["month"].isin(month_range)`. -/
def monthPred (months : List PyStr) (r : PayoutRecord) : Bool :=
  months.contains r.month

/-- The TDS checkbox predicate: `df["tds"] > 0` (null compares false). -/
def tdsPred (r : PayoutRecord) : Bool :=
  match r.tds with
  | some v => decide (0 < v)
  | none => false

/-- The uncredited checkbox predicate:
`df["transaction_id"].isna() | (df["transaction_id"] == "")`. -/
def uncreditedPred (r : PayoutRecord) : Bool :=
  match r.transaction_id with
  | none => true
  | some s => s == []

/-- The dashboard filter chain: each filter applies only when its control
is active (non-empty search text, non-empty month selection, checked
checkbox); the search text is lowercased before matching. -/
def filterChain (search : PyStr) (months : List PyStr) (tdsOnly uncredited : Bool)
    (rs : List PayoutRecord) : List PayoutRecord :=
  let r1 := if search ≠ [] then rs.filter (searchPred (pyLower search)) else rs
  let r2 := if months ≠ [] then r1.filter (monthPred months) else r1
  let r3 := if tdsOnly then r2.filter tdsPred else r2
  if uncredited then r3.filter uncreditedPred else r3

/-- The four filter predicates, as activated by the sidebar controls. -/
def dashFilters (search : PyStr) (months : List PyStr) : List (PayoutRecord → Bool) :=
  [searchPred (pyLower search), monthPred months, tdsPred, uncreditedPred]

/-- Strict `%Y-%m` parse, as `pd.to_datetime(..., format="%Y-%m")`
demands: four digits, a dash, two digits, month between 1 and 12. -/
def parseYM (s : PyStr) : Option (Nat × Nat) :=
  match s with
  | [a, b, c, d, dash, e, f] =>
    if isDigitChar a ∧ isDigitChar b ∧ isDigitChar c ∧ isDigitChar d ∧ dash = 45
        ∧ isDigitChar e ∧ isDigitChar f then
      let mo := (e - 48) * 10 + (f - 48)
      if 1 ≤ mo ∧ mo ≤ 12 then
        some ((a - 48) * 1000 + (b - 48) * 100 + (c - 48) * 10 + (d - 48), mo)
      else none
    else none
  | _ => none

/-- The distinct month keys of a record set (`groupby("month")` keys). -/
def monthsOf (rs : List PayoutRecord) : List PyStr :=
  (rs.map (fun r => r.month)).dedup

/-- Sum of `net_payable` over the records of one month; nulls contribute
nothing, as pandas `sum` skips `NaN`. -/
def sumNet (rs : List PayoutRecord) (m : PyStr) : ℚ :=
  ((rs.filter (fun r => r.month = m)).map (fun r => r.net_payable.getD 0)).sum

/-- Insert into a list sorted by parsed (year, month) key. -/
def insertByYM (x : (Nat × Nat) × ℚ) : List ((Nat × Nat) × ℚ) → List ((Nat × Nat) × ℚ)
  | [] => [x]
  | y :: t =>
    if x.1.1 < y.1.1 ∨ (x.1.1 = y.1.1 ∧ x.1.2 ≤ y.1.2) then x :: y :: t
    else y :: insertByYM x t

/-- Sort a chart series by its (year, month) key (`sort_values("month")`). -/
def sortByYM : List ((Nat × Nat) × ℚ) → List ((Nat × Nat) × ℚ)
  | [] => []
  | x :: t => insertByYM x (sortByYM t)

/-- The chart series of the dashboard: group by month, sum `net_payable`,
parse every key with `%Y-%m`, sort by date.  When any key fails to parse,
`pd.to_datetime` raises inside the chart `try`, the handler shows a
warning and no chart is produced (`none`); the rest of the page still
renders. -/
def chartSeries (rs : List PayoutRecord) : Option (List ((Nat × Nat) × ℚ)) :=
  if (monthsOf rs).all (fun m => (parseYM m).isSome) then
    some (sortByYM ((monthsOf rs).map (fun m => ((parseYM m).getD (0, 0), sumNet rs m))))
  else none

/-! ### Concrete example data for counterexamples and witnesses -/

/-- A one-row CSV with a comma-grouped amount and a yes TDS flag. -/
def rf1 : RawFrame :=
  ⟨[codes "Amount", codes "TDS Applicability"], [[codes "1,234.50", codes "Yes"]]⟩

/-- A one-row CSV with only a TDS Applicability column. -/
def rf2 : RawFrame := ⟨[codes "TDS Applicability"], [[codes "Yes"]]⟩

/-- A one-row CSV whose amount cell is non-numeric. -/
def rf3 : RawFrame :=
  ⟨[codes "Amount", codes "TDS Applicability"], [[codes "abc", codes "Yes"]]⟩

/-- A one-row CSV without any column normalizing to `tds_applicable`. -/
def rf4 : RawFrame := ⟨[codes "Amount"], [[codes "5"]]⟩

/-- A stored record for April 2025 with a well-formed month tag. -/
def recA : PayoutRecord :=
  ⟨codes "a1", codes "u1", codes "e@x", codes "9", codes "en", some 10, some true,
    some 1, some 9, some 10, codes "n", codes "acc", codes "ifsc", some (codes "t1"),
    some (codes "01/04/2025"), codes "2025-04"⟩

/-- A stored record whose month tag does not parse as YYYY-MM. -/
def recB : PayoutRecord :=
  ⟨codes "a2", codes "u2", codes "f@x", codes "8", codes "hi", some 5, some false,
    some 0, some 5, some 5, codes "m", codes "acc2", codes "ifsc2", none,
    none, codes "bad"⟩

/-! ### Character-level facts about the header cleaning -/

theorem lowerChar_idem (c : Nat) : lowerChar (lowerChar c) = lowerChar c := by
  unfold lowerChar
  split_ifs <;> omega

theorem underscoreChar_idem (c : Nat) : underscoreChar (underscoreChar c) = underscoreChar c := by
  unfold underscoreChar
  split_ifs <;> omega

theorem lowerChar_fix_cleaned (c : Nat) :
    lowerChar (underscoreChar (lowerChar c)) = underscoreChar (lowerChar c) := by
  unfold lowerChar underscoreChar
  split_ifs <;> omega

theorem isWsChar_lowerChar (c : Nat) (h : isWsChar c = false) :
    isWsChar (lowerChar c) = false := by
  simp only [isWsChar, Bool.or_eq_false_iff, beq_eq_false_iff_ne, ne_eq] at h ⊢
  unfold lowerChar
  split <;> omega

theorem isWsChar_underscoreChar (c : Nat) (h : isWsChar c = false) :
    isWsChar (underscoreChar c) = false := by
  simp only [isWsChar, Bool.or_eq_false_iff, beq_eq_false_iff_ne, ne_eq] at h ⊢
  unfold underscoreChar
  split <;> omega

/-! ### Whitespace stripping facts -/

theorem dropWhile_eq_self_noLead (l : PyStr)
    (h : ∀ c, l.head? = some c → isWsChar c = false) :
    l.dropWhile isWsChar = l := by
  cases l with
  | nil => rfl
  | cons a t =>
    have ha := h a rfl
    simp [List.dropWhile_cons, ha]

theorem head_dropWhile_noWs (l : PyStr) :
    ∀ c, (l.dropWhile isWsChar).head? = some c → isWsChar c = false := by
  induction l with
  | nil => intro c hc; simp at hc
  | cons a t ih =>
    intro c hc
    rw [List.dropWhile_cons] at hc
    by_cases ha : isWsChar a = true
    · rw [if_pos ha] at hc
      exact ih c hc
    · rw [if_neg ha] at hc
      have : a = c := by simpa using hc
      subst this
      exact Bool.eq_false_iff.mpr ha

theorem head?_of_isPrefix (l1 l2 : PyStr) (h : l1 <+: l2) (hne : l1 ≠ []) :
    l1.head? = l2.head? := by
  obtain ⟨t, rfl⟩ := h
  cases l1 with
  | nil => exact absurd rfl hne
  | cons a t1 => rfl

theorem strip_noLead (s : PyStr) :
    ∀ c, (pyStrip s).head? = some c → isWsChar c = false := by
  intro c hc
  have hpre : pyStrip s <+: s.dropWhile isWsChar := by
    have h0 : ((s.dropWhile isWsChar).reverse.dropWhile isWsChar).reverse <+:
        (s.dropWhile isWsChar).reverse.reverse :=
      List.reverse_prefix.mpr (List.dropWhile_suffix isWsChar)
    rw [List.reverse_reverse] at h0
    exact h0
  rcases eq_or_ne (pyStrip s) [] with he | hne
  · rw [he] at hc
    simp at hc
  · rw [head?_of_isPrefix _ _ hpre hne] at hc
    exact head_dropWhile_noWs s c hc

theorem strip_noTrail (s : PyStr) :
    ∀ c, (pyStrip s).reverse.head? = some c → isWsChar c = false := by
  unfold pyStrip
  rw [List.reverse_reverse]
  exact head_dropWhile_noWs _

theorem noLead_map (f : Nat → Nat) (hf : ∀ c, isWsChar c = false → isWsChar (f c) = false)
    (l : PyStr) (h : ∀ c, l.head? = some c → isWsChar c = false) :
    ∀ c, (l.map f).head? = some c → isWsChar c = false := by
  intro c hc
  rw [List.head?_map] at hc
  cases hl : l.head? with
  | none => rw [hl] at hc; simp at hc
  | some a =>
    rw [hl] at hc
    have : f a = c := by simpa using hc
    subst this
    exact hf a (h a hl)

theorem strip_eq_self (l : PyStr)
    (h1 : ∀ c, l.head? = some c → isWsChar c = false)
    (h2 : ∀ c, l.reverse.head? = some c → isWsChar c = false) :
    pyStrip l = l := by
  unfold pyStrip
  rw [dropWhile_eq_self_noLead l h1, dropWhile_eq_self_noLead l.reverse h2,
    List.reverse_reverse]

/-! ### Header normalization is idempotent (claim C4) -/

theorem cleanHeader_as_map (s : PyStr) :
    cleanHeader s = (pyStrip s).map (fun c => underscoreChar (lowerChar c)) := by
  unfold cleanHeader pyLower spacesToUnderscores
  rw [List.map_map]
  rfl

theorem strip_cleanHeader (s : PyStr) : pyStrip (cleanHeader s) = cleanHeader s := by
  apply strip_eq_self
  · rw [cleanHeader_as_map]
    exact noLead_map _ (fun c hc => isWsChar_underscoreChar _ (isWsChar_lowerChar _ hc)) _
      (strip_noLead s)
  · rw [cleanHeader_as_map, ← List.map_reverse]
    exact noLead_map _ (fun c hc => isWsChar_underscoreChar _ (isWsChar_lowerChar _ hc)) _
      (strip_noTrail s)

theorem lower_cleanHeader (s : PyStr) : pyLower (cleanHeader s) = cleanHeader s := by
  rw [cleanHeader_as_map]
  unfold pyLower
  rw [List.map_map]
  exact List.map_congr_left (fun a _ => lowerChar_fix_cleaned a)

theorem underscores_cleanHeader (s : PyStr) :
    spacesToUnderscores (cleanHeader s) = cleanHeader s := by
  rw [cleanHeader_as_map]
  unfold spacesToUnderscores
  rw [List.map_map]
  exact List.map_congr_left (fun a _ => underscoreChar_idem (lowerChar a))

theorem cleanHeader_idem (s : PyStr) : cleanHeader (cleanHeader s) = cleanHeader s :=
  calc cleanHeader (cleanHeader s)
      = spacesToUnderscores (pyLower (pyStrip (cleanHeader s))) := rfl
    _ = cleanHeader s := by
        rw [strip_cleanHeader, lower_cleanHeader, underscores_cleanHeader]

/-- Claim C4: header normalization (trim, lowercase, underscores, then the
fixed rename table) is idempotent — for every header string `h`,
`normalize(normalize(h)) = normalize(h)`. -/
theorem normalizeHeader_idem (h : PyStr) :
    normalizeHeader (normalizeHeader h) = normalizeHeader h := by
  have hx : cleanHeader (cleanHeader h) = cleanHeader h := cleanHeader_idem h
  show renameHeader (cleanHeader (renameHeader (cleanHeader h))) = renameHeader (cleanHeader h)
  by_cases h1 : cleanHeader h = codes "email_id"
  · rw [h1]; decide
  by_cases h2 : cleanHeader h = codes "phone_number"
  · rw [h2]; decide
  by_cases h3 : cleanHeader h = codes "langauge"
  · rw [h3]; decide
  by_cases h4 : cleanHeader h = codes "tds_applicability"
  · rw [h4]; decide
  have hr : renameHeader (cleanHeader h) = cleanHeader h := by
    unfold renameHeader
    rw [if_neg h1, if_neg h2, if_neg h3, if_neg h4]
  rw [hr, hx, hr]

/-! ### Boolean coercion (claim C5) -/

/-- Claim C5: the boolean coercion of `tds_applicable` maps,
case-insensitively, yes to true and no to false; any other cell value
(blank included) yields the unknown state `none`.  The coercion is a total
function, so it never raises. -/
theorem tds_coercion_cases (s : PyStr) :
    (pyLower s = codes "yes" → tdsOfStr s = some true) ∧
    (pyLower s = codes "no" → tdsOfStr s = some false) ∧
    (pyLower s ≠ codes "yes" → pyLower s ≠ codes "no" → tdsOfStr s = none) := by
  unfold tdsOfStr
  refine ⟨fun h => ?_, fun h => ?_, fun h1 h2 => ?_⟩
  · rw [if_pos h]
  · have hne : ¬ pyLower s = codes "yes" := by rw [h]; decide
    rw [if_neg hne, if_pos h]
  · rw [if_neg h1, if_neg h2]

theorem tds_coercion_cases_witness :
    tdsOfStr (codes "YES") = some true ∧ tdsOfStr (codes "No") = some false ∧
      tdsOfStr (codes "Maybe") = none ∧ tdsOfStr (codes "") = none :=
  ⟨(tds_coercion_cases (codes "YES")).1 (by decide),
    (tds_coercion_cases (codes "No")).2.1 (by decide),
    (tds_coercion_cases (codes "Maybe")).2.2 (by decide) (by decide),
    (tds_coercion_cases (codes "")).2.2 (by decide) (by decide)⟩

/-! ### Filter chain laws (claims C7 and C8) -/

/-- Claim C7: with every option inactive (empty search text, empty month
selection, both checkboxes unchecked) the filter chain returns the input
record set unchanged, in the same order. -/
theorem filterChain_noop (rs : List PayoutRecord) :
    filterChain [] [] false false rs = rs := by
  simp [filterChain]

/-- Claim C8: any two of the four filter predicates commute, and applying
both equals the intersection of applying each independently. -/
theorem filter_composition (search : PyStr) (months : List PyStr)
    (p q : PayoutRecord → Bool) (hp : p ∈ dashFilters search months)
    (hq : q ∈ dashFilters search months) (rs : List PayoutRecord) :
    (rs.filter p).filter q = (rs.filter q).filter p ∧
    ∀ x, (x ∈ (rs.filter p).filter q ↔ x ∈ rs.filter p ∧ x ∈ rs.filter q) := by
  constructor
  · simp only [List.filter_filter]
    exact List.filter_congr fun a _ => by rw [Bool.and_comm]
  · intro x
    simp only [List.mem_filter]
    tauto

theorem filter_composition_witness :
    (([recA, recB].filter tdsPred).filter uncreditedPred
        = ([recA, recB].filter uncreditedPred).filter tdsPred) ∧
    ∀ x, (x ∈ ([recA, recB].filter tdsPred).filter uncreditedPred ↔
        x ∈ [recA, recB].filter tdsPred ∧ x ∈ [recA, recB].filter uncreditedPred) :=
  filter_composition [] [] tdsPred uncreditedPred
    (List.mem_cons_of_mem _ (List.mem_cons_of_mem _ (List.mem_cons_self _ _)))
    (List.mem_cons_of_mem _ (List.mem_cons_of_mem _
      (List.mem_cons_of_mem _ (List.mem_cons_self _ _))))
    [recA, recB]

/-! ### CLI exit codes (claim C2) -/

/-- Claim C2 evaluated on the code: the CLI exits 1 on missing connection
config, wrong argument count and missing file, and 0 on success — but a
failing store write also ends with exit code 0, because the `except`
branch around `to_sql` prints a diagnostic without calling `sys.exit(1)`.
The last conjunct exhibits the failing input for the claim. -/
theorem cli_exit_codes :
    (cliRun ⟨none, [codes "upload_payouts.py", codes "payouts.csv", codes "2025-04"],
        true, rf1, true⟩).exitCode = 1 ∧
    (cliRun ⟨some (codes "postgres://db"), [codes "upload_payouts.py", codes "payouts.csv"],
        true, rf1, true⟩).exitCode = 1 ∧
    (cliRun ⟨some (codes "postgres://db"), [codes "upload_payouts.py", codes "payouts.csv",
        codes "2025-04"], false, rf1, true⟩).exitCode = 1 ∧
    (cliRun ⟨some (codes "postgres://db"), [codes "upload_payouts.py", codes "payouts.csv",
        codes "2025-04"], true, rf1, true⟩).exitCode = 0 ∧
    (cliRun ⟨some (codes "postgres://db"), [codes "upload_payouts.py", codes "payouts.csv",
        codes "2025-04"], true, rf1, false⟩).exitCode = 0 := by
  decide

/-! ### Chart aggregation (claim C3) -/

theorem insertByYM_length (x : (Nat × Nat) × ℚ) (l : List ((Nat × Nat) × ℚ)) :
    (insertByYM x l).length = l.length + 1 := by
  induction l with
  | nil => rfl
  | cons y t ih =>
    unfold insertByYM
    split <;> simp [ih]

theorem sortByYM_length (l : List ((Nat × Nat) × ℚ)) :
    (sortByYM l).length = l.length := by
  induction l with
  | nil => rfl
  | cons x t ih =>
    unfold sortByYM
    rw [insertByYM_length, ih, List.length_cons]

/-- Claim C3 counterexample: a record set holding one record whose month
parses as YYYY-MM and one whose month does not produces no chart at all —
the record with a parseable month is not charted, because the single
`pd.to_datetime` call on the grouped keys raises once and the whole chart
is skipped. -/
theorem chart_drops_parseable_month :
    parseYM recA.month = some (2025, 4) ∧ parseYM recB.month = none ∧
      chartSeries [recA, recB] = none := by
  decide

/-- Claim C3 amended: the chart series is absent exactly when some grouped
month value fails to parse as YYYY-MM (so one bad month drops all records
from the chart, parseable months included); a chart failure only withholds
the series and never fails the request; and when every month parses the
series holds one point per distinct month. -/
theorem chart_none_iff_bad_month (rs : List PayoutRecord) :
    (chartSeries rs = none ↔ ∃ m ∈ monthsOf rs, parseYM m = none) ∧
    (∀ ser, chartSeries rs = some ser → ser.length = (monthsOf rs).length) := by
  constructor
  · constructor
    · intro hnone
      by_contra hno
      push_neg at hno
      have hall : (monthsOf rs).all (fun m => (parseYM m).isSome) = true := by
        rw [List.all_eq_true]
        intro m hm
        cases hp : parseYM m with
        | none => exact absurd hp (hno m hm)
        | some v => simp
      unfold chartSeries at hnone
      simp [hall] at hnone
    · rintro ⟨m, hm, hpm⟩
      have hall : ¬ ((monthsOf rs).all (fun m => (parseYM m).isSome) = true) := by
        rw [List.all_eq_true]
        intro hforall
        have hsome := hforall m hm
        rw [hpm] at hsome
        simp at hsome
      unfold chartSeries
      rw [if_neg hall]
  · intro ser hser
    unfold chartSeries at hser
    by_cases hall : (monthsOf rs).all (fun m => (parseYM m).isSome) = true
    · rw [if_pos hall] at hser
      cases hser
      rw [sortByYM_length, List.length_map]
    · rw [if_neg hall] at hser
      cases hser

/-! ### Frame infrastructure lemmas -/

theorem modifyAt_length (i : Nat) (f : Cell → Cell) (r : List Cell) :
    (modifyAt i f r).length = r.length := by
  induction r generalizing i with
  | nil => simp [modifyAt]
  | cons c t ih =>
    cases i with
    | zero => rfl
    | succ n => simp [modifyAt, ih]

theorem modifyAt_getD_self (i : Nat) (f : Cell → Cell) (r : List Cell) (d : Cell)
    (h : i < r.length) :
    (modifyAt i f r).getD i d = f (r.getD i d) := by
  induction r generalizing i with
  | nil => simp at h
  | cons c t ih =>
    cases i with
    | zero => rfl
    | succ n =>
      simp only [modifyAt, List.getD_cons_succ]
      exact ih n (by simpa using h)

theorem modifyAt_getD_ne (i j : Nat) (f : Cell → Cell) (r : List Cell) (d : Cell)
    (h : j ≠ i) :
    (modifyAt i f r).getD j d = r.getD j d := by
  induction r generalizing i j with
  | nil => simp [modifyAt]
  | cons c t ih =>
    cases i with
    | zero =>
      cases j with
      | zero => exact absurd rfl h
      | succ m => rfl
    | succ n =>
      cases j with
      | zero => rfl
      | succ m =>
        simp only [modifyAt, List.getD_cons_succ]
        exact ih n m (fun hc => h (by rw [hc]))

theorem mem_modifyAt (i : Nat) (f : Cell → Cell) (r : List Cell) (c : Cell)
    (h : c ∈ modifyAt i f r) :
    c ∈ r ∨ ∃ a, a ∈ r ∧ c = f a := by
  induction r generalizing i with
  | nil => simp [modifyAt] at h
  | cons x t ih =>
    cases i with
    | zero =>
      rw [show modifyAt 0 f (x :: t) = f x :: t from rfl] at h
      rcases List.mem_cons.mp h with h1 | h1
      · exact Or.inr ⟨x, List.mem_cons_self x t, h1⟩
      · exact Or.inl (List.mem_cons_of_mem x h1)
    | succ n =>
      rw [show modifyAt (n + 1) f (x :: t) = x :: modifyAt n f t from rfl] at h
      rcases List.mem_cons.mp h with h1 | h1
      · exact Or.inl (h1 ▸ List.mem_cons_self x t)
      · rcases ih n h1 with h2 | ⟨a, ha, hc⟩
        · exact Or.inl (List.mem_cons_of_mem x h2)
        · exact Or.inr ⟨a, List.mem_cons_of_mem x ha, hc⟩

theorem findIdx_lt_length (hs : List PyStr) (h : PyStr) (i : Nat)
    (hf : findIdx hs h = some i) : i < hs.length := by
  induction hs generalizing i with
  | nil => simp [findIdx] at hf
  | cons a t ih =>
    unfold findIdx at hf
    by_cases ha : a = h
    · rw [if_pos ha] at hf
      have h0 : (0 : Nat) = i := by simpa using hf
      subst h0
      simp
    · rw [if_neg ha] at hf
      cases hm : findIdx t h with
      | none => rw [hm] at hf; simp at hf
      | some j =>
        rw [hm] at hf
        have hj : j + 1 = i := by simpa using hf
        subst hj
        simpa using Nat.succ_lt_succ (ih j hm)

theorem findIdx_getD (hs : List PyStr) (h : PyStr) (i : Nat)
    (hf : findIdx hs h = some i) : hs.getD i [] = h := by
  induction hs generalizing i with
  | nil => simp [findIdx] at hf
  | cons a t ih =>
    unfold findIdx at hf
    by_cases ha : a = h
    · rw [if_pos ha] at hf
      have h0 : (0 : Nat) = i := by simpa using hf
      subst h0
      simpa using ha
    · rw [if_neg ha] at hf
      cases hm : findIdx t h with
      | none => rw [hm] at hf; simp at hf
      | some j =>
        rw [hm] at hf
        have hj : j + 1 = i := by simpa using hf
        subst hj
        simpa using ih j hm

theorem findIdx_eq_none_iff (hs : List PyStr) (h : PyStr) :
    findIdx hs h = none ↔ h ∉ hs := by
  induction hs with
  | nil => simp [findIdx]
  | cons a t ih =>
    unfold findIdx
    rcases eq_or_ne a h with rfl | ha
    · simp
    · rw [if_neg ha]
      constructor
      · intro h0 hmem
        rcases List.mem_cons.mp hmem with h1 | h1
        · exact ha h1.symm
        · rw [Option.map_eq_none'] at h0
          exact (ih.mp h0) h1
      · intro hnotmem
        rw [Option.map_eq_none']
        exact ih.mpr (fun hm => hnotmem (List.mem_cons_of_mem a hm))

theorem findIdx_append_self (hs : List PyStr) (x : PyStr) (h : findIdx hs x = none) :
    findIdx (hs ++ [x]) x = some hs.length := by
  induction hs with
  | nil => simp [findIdx]
  | cons a t ih =>
    have hcons : ∀ l : List PyStr,
        findIdx (a :: l) x = if a = x then some 0 else (findIdx l x).map (· + 1) :=
      fun l => rfl
    rw [hcons] at h
    rw [List.cons_append, hcons]
    by_cases ha : a = x
    · rw [if_pos ha] at h
      simp at h
    · rw [if_neg ha] at h ⊢
      rw [Option.map_eq_none'] at h
      rw [ih h]
      simp

theorem colCells_cons (r : List Cell) (t : List (List Cell)) (i : Nat) :
    colCells (r :: t) i = r.getD i Cell.nullv :: colCells t i := rfl

theorem convertRows_length (i : Nat) (rows rows2 : List (List Cell))
    (h : convertRows i rows = some rows2) : rows2.length = rows.length := by
  induction rows generalizing rows2 with
  | nil =>
    have : ([] : List (List Cell)) = rows2 := by simpa [convertRows] using h
    subst this
    rfl
  | cons r t ih =>
    unfold convertRows at h
    cases hc : cellToFloat (r.getD i Cell.nullv) with
    | none => rw [hc] at h; simp at h
    | some q =>
      rw [hc] at h
      cases hm : convertRows i t with
      | none => rw [hm] at h; simp at h
      | some t2 =>
        rw [hm] at h
        have he : modifyAt i (fun _ => Cell.num q) r :: t2 = rows2 := by simpa using h
        subst he
        simp [ih t2 hm]

theorem convertRows_rowLength (i n : Nat) (rows rows2 : List (List Cell))
    (h : convertRows i rows = some rows2) (hlen : ∀ r ∈ rows, r.length = n) :
    ∀ r ∈ rows2, r.length = n := by
  induction rows generalizing rows2 with
  | nil =>
    have : ([] : List (List Cell)) = rows2 := by simpa [convertRows] using h
    subst this
    simp
  | cons r t ih =>
    unfold convertRows at h
    cases hc : cellToFloat (r.getD i Cell.nullv) with
    | none => rw [hc] at h; simp at h
    | some q =>
      rw [hc] at h
      cases hm : convertRows i t with
      | none => rw [hm] at h; simp at h
      | some t2 =>
        rw [hm] at h
        have he : modifyAt i (fun _ => Cell.num q) r :: t2 = rows2 := by simpa using h
        subst he
        intro r2 hr2
        rcases List.mem_cons.mp hr2 with h1 | h1
        · rw [h1, modifyAt_length]
          exact hlen r (List.mem_cons_self r t)
        · exact ih t2 hm (fun r3 hr3 => hlen r3 (List.mem_cons_of_mem r hr3)) r2 h1

theorem convertRows_colCells_ne (i j : Nat) (rows rows2 : List (List Cell))
    (h : convertRows i rows = some rows2) (hne : j ≠ i) :
    colCells rows2 j = colCells rows j := by
  induction rows generalizing rows2 with
  | nil =>
    have : ([] : List (List Cell)) = rows2 := by simpa [convertRows] using h
    subst this
    rfl
  | cons r t ih =>
    unfold convertRows at h
    cases hc : cellToFloat (r.getD i Cell.nullv) with
    | none => rw [hc] at h; simp at h
    | some q =>
      rw [hc] at h
      cases hm : convertRows i t with
      | none => rw [hm] at h; simp at h
      | some t2 =>
        rw [hm] at h
        have he : modifyAt i (fun _ => Cell.num q) r :: t2 = rows2 := by simpa using h
        subst he
        rw [colCells_cons, colCells_cons, modifyAt_getD_ne i j _ r Cell.nullv hne,
          ih t2 hm]

theorem convertRows_none_of_bad (i : Nat) (rows : List (List Cell)) (c : Cell)
    (hmem : c ∈ colCells rows i) (hbad : cellToFloat c = none) :
    convertRows i rows = none := by
  induction rows with
  | nil => simp [colCells] at hmem
  | cons r t ih =>
    rw [colCells_cons] at hmem
    unfold convertRows
    rcases List.mem_cons.mp hmem with h1 | h1
    · rw [← h1, hbad]
    · cases hc : cellToFloat (r.getD i Cell.nullv) with
      | none => rfl
      | some q => rw [ih h1]

theorem coerceNumericCol_headers (fr : Frame) (h : PyStr) (fr2 : Frame)
    (hok : coerceNumericCol fr h = .ok fr2) : fr2.headers = fr.headers := by
  unfold coerceNumericCol at hok
  split at hok
  · have : fr = fr2 := by simpa using hok
    rw [← this]
  · split at hok
    · simp at hok
    · rename_i rs hm
      have : (⟨fr.headers, rs⟩ : Frame) = fr2 := by simpa using hok
      rw [← this]

theorem coerceNumericCol_colCells_ne (fr : Frame) (h : PyStr) (fr2 : Frame)
    (hok : coerceNumericCol fr h = .ok fr2) (j : Nat)
    (hne : findIdx fr.headers h ≠ some j) :
    colCells fr2.rows j = colCells fr.rows j := by
  unfold coerceNumericCol at hok
  split at hok
  · have : fr = fr2 := by simpa using hok
    rw [← this]
  · rename_i i hf
    split at hok
    · simp at hok
    · rename_i rs hm
      have he : (⟨fr.headers, rs⟩ : Frame) = fr2 := by simpa using hok
      rw [← he]
      exact convertRows_colCells_ne i j fr.rows rs hm (fun hj => hne (by rw [hf, hj]))

theorem coerceNumericCol_rowLength (fr : Frame) (h : PyStr) (fr2 : Frame) (n : Nat)
    (hok : coerceNumericCol fr h = .ok fr2) (hlen : ∀ r ∈ fr.rows, r.length = n) :
    ∀ r ∈ fr2.rows, r.length = n := by
  unfold coerceNumericCol at hok
  split at hok
  · have : fr = fr2 := by simpa using hok
    rw [← this]
    exact hlen
  · rename_i i hf
    split at hok
    · simp at hok
    · rename_i rs hm
      have he : (⟨fr.headers, rs⟩ : Frame) = fr2 := by simpa using hok
      rw [← he]
      exact convertRows_rowLength i n fr.rows rs hm hlen

theorem coerceNumericCol_rows_length (fr : Frame) (h : PyStr) (fr2 : Frame)
    (hok : coerceNumericCol fr h = .ok fr2) : fr2.rows.length = fr.rows.length := by
  unfold coerceNumericCol at hok
  split at hok
  · have : fr = fr2 := by simpa using hok
    rw [← this]
  · rename_i i hf
    split at hok
    · simp at hok
    · rename_i rs hm
      have he : (⟨fr.headers, rs⟩ : Frame) = fr2 := by simpa using hok
      rw [← he]
      exact convertRows_length i fr.rows rs hm

theorem coerceNumericCols_headers (cols : List PyStr) (fr fr2 : Frame)
    (hok : coerceNumericCols fr cols = .ok fr2) : fr2.headers = fr.headers := by
  induction cols generalizing fr with
  | nil =>
    have : fr = fr2 := by simpa [coerceNumericCols] using hok
    rw [← this]
  | cons h0 t ih =>
    unfold coerceNumericCols at hok
    cases hc : coerceNumericCol fr h0 with
    | error e => rw [hc] at hok; simp at hok
    | ok fr1 =>
      rw [hc] at hok
      rw [ih fr1 hok, coerceNumericCol_headers fr h0 fr1 hc]

theorem coerceNumericCols_rowLength (cols : List PyStr) (fr fr2 : Frame) (n : Nat)
    (hok : coerceNumericCols fr cols = .ok fr2) (hlen : ∀ r ∈ fr.rows, r.length = n) :
    ∀ r ∈ fr2.rows, r.length = n := by
  induction cols generalizing fr with
  | nil =>
    have : fr = fr2 := by simpa [coerceNumericCols] using hok
    rw [← this]
    exact hlen
  | cons h0 t ih =>
    unfold coerceNumericCols at hok
    cases hc : coerceNumericCol fr h0 with
    | error e => rw [hc] at hok; simp at hok
    | ok fr1 =>
      rw [hc] at hok
      exact ih fr1 hok (coerceNumericCol_rowLength fr h0 fr1 n hc hlen)

theorem coerceNumericCols_rows_length (cols : List PyStr) (fr fr2 : Frame)
    (hok : coerceNumericCols fr cols = .ok fr2) : fr2.rows.length = fr.rows.length := by
  induction cols generalizing fr with
  | nil =>
    have : fr = fr2 := by simpa [coerceNumericCols] using hok
    rw [← this]
  | cons h0 t ih =>
    unfold coerceNumericCols at hok
    cases hc : coerceNumericCol fr h0 with
    | error e => rw [hc] at hok; simp at hok
    | ok fr1 =>
      rw [hc] at hok
      rw [ih fr1 hok, coerceNumericCol_rows_length fr h0 fr1 hc]

theorem coerceNumericCols_bad (cols : List PyStr) (fr : Frame) (h : PyStr) (i : Nat)
    (c : Cell) (hmem : h ∈ cols) (hidx : findIdx fr.headers h = some i)
    (hc : c ∈ colCells fr.rows i) (hbad : cellToFloat c = none) :
    ∀ fr2, coerceNumericCols fr cols ≠ .ok fr2 := by
  induction cols generalizing fr with
  | nil => simp at hmem
  | cons h0 t ih =>
    intro fr2 hok
    unfold coerceNumericCols at hok
    cases hcc : coerceNumericCol fr h0 with
    | error e => rw [hcc] at hok; simp at hok
    | ok fr1 =>
      rw [hcc] at hok
      by_cases heq : h0 = h
      · subst heq
        have hcol : coerceNumericCol fr h0 = .error .parseError := by
          unfold coerceNumericCol
          simp only [hidx, convertRows_none_of_bad i fr.rows c hc hbad]
        rw [hcol] at hcc
        simp at hcc
      · have hmem2 : h ∈ t := by
          rcases List.mem_cons.mp hmem with h1 | h1
          · exact absurd h1.symm heq
          · exact h1
        have hne : findIdx fr.headers h0 ≠ some i := by
          intro hcon
          exact heq ((findIdx_getD _ _ _ hcon).symm.trans (findIdx_getD _ _ _ hidx))
        have hidx1 : findIdx fr1.headers h = some i := by
          rw [coerceNumericCol_headers fr h0 fr1 hcc]
          exact hidx
        have hc1 : c ∈ colCells fr1.rows i := by
          rw [coerceNumericCol_colCells_ne fr h0 fr1 hcc i hne]
          exact hc
        exact ih fr1 hmem2 hidx1 hc1 fr2 hok

theorem getD_append_self (r : List Cell) (v d : Cell) :
    (r ++ [v]).getD r.length d = v := by
  rw [List.getD_eq_getElem?_getD, List.getElem?_concat_length]
  rfl

theorem mapCol_headers (i : Nat) (f : Cell → Cell) (fr : Frame) :
    (mapCol i f fr).headers = fr.headers := rfl

theorem mapCol_colCells_ne (i j : Nat) (f : Cell → Cell) (fr : Frame) (hne : j ≠ i) :
    colCells (mapCol i f fr).rows j = colCells fr.rows j := by
  unfold mapCol colCells
  rw [List.map_map]
  exact List.map_congr_left (fun r hr => modifyAt_getD_ne i j f r Cell.nullv hne)

theorem mapCol_rowLength (i : Nat) (f : Cell → Cell) (fr : Frame) (n : Nat)
    (hlen : ∀ r ∈ fr.rows, r.length = n) :
    ∀ r ∈ (mapCol i f fr).rows, r.length = n := by
  intro r hr
  rcases List.mem_map.mp hr with ⟨r0, hr0, he⟩
  rw [← he, modifyAt_length]
  exact hlen r0 hr0

theorem setColConst_col (h : PyStr) (v : Cell) (fr : Frame) (hal : fr.aligned) :
    (setColConst h v fr).col h = some (List.replicate fr.rows.length v) := by
  cases hf : findIdx fr.headers h with
  | some i =>
    have hset : setColConst h v fr = ⟨fr.headers, fr.rows.map (modifyAt i (fun _ => v))⟩ := by
      unfold setColConst
      rw [hf]
    rw [hset]
    unfold Frame.col
    simp only [hf, Option.map_some']
    congr 1
    unfold colCells
    rw [List.map_map]
    have hpt : ∀ r ∈ fr.rows, (modifyAt i (fun _ => v) r).getD i Cell.nullv = v := by
      intro r hr
      rw [modifyAt_getD_self i _ r Cell.nullv (by rw [hal r hr]; exact findIdx_lt_length _ _ _ hf)]
    trans List.map (fun _ => v) fr.rows
    · exact List.map_congr_left hpt
    · exact List.map_const' _ _
  | none =>
    have hset : setColConst h v fr = ⟨fr.headers ++ [h], fr.rows.map (fun r => r ++ [v])⟩ := by
      unfold setColConst
      rw [hf]
    rw [hset]
    unfold Frame.col
    simp only [findIdx_append_self fr.headers h hf, Option.map_some']
    congr 1
    unfold colCells
    rw [List.map_map]
    have hpt : ∀ r ∈ fr.rows, ((r ++ [v]).getD fr.headers.length Cell.nullv) = v := by
      intro r hr
      rw [← hal r hr]
      exact getD_append_self r v Cell.nullv
    trans List.map (fun _ => v) fr.rows
    · exact List.map_congr_left hpt
    · exact List.map_const' _ _

theorem setColConst_rows_length (h : PyStr) (v : Cell) (fr : Frame) :
    (setColConst h v fr).rows.length = fr.rows.length := by
  unfold setColConst
  cases hf : findIdx fr.headers h <;> simp

theorem dateCoerce_headers (fr : Frame) : (dateCoerce fr).headers = fr.headers := by
  unfold dateCoerce
  split
  · rfl
  · split <;> rfl

theorem dateCoerce_rowLength (fr : Frame) (n : Nat)
    (hlen : ∀ r ∈ fr.rows, r.length = n) :
    ∀ r ∈ (dateCoerce fr).rows, r.length = n := by
  unfold dateCoerce
  split
  · exact hlen
  · split
    · intro r hr
      rcases List.mem_map.mp hr with ⟨r0, hr0, he⟩
      rw [← he, modifyAt_length]
      exact hlen r0 hr0
    · exact hlen

theorem dateCoerce_rows_length (fr : Frame) :
    (dateCoerce fr).rows.length = fr.rows.length := by
  unfold dateCoerce
  split
  · rfl
  · split <;> simp

theorem getD_map_text (r : List PyStr) (i : Nat) (hlt : i < r.length) :
    (r.map Cell.text).getD i Cell.nullv = Cell.text (r.getD i []) := by
  rw [List.getD_eq_getElem?_getD, List.getD_eq_getElem?_getD, List.getElem?_map]
  cases he : r[i]? with
  | none =>
    rw [List.getElem?_eq_none_iff] at he
    omega
  | some s => rfl

theorem toCells_aligned (rf : RawFrame) (hal : rf.aligned) : (toCells rf).aligned := by
  intro r hr
  rcases List.mem_map.mp hr with ⟨r0, hr0, he⟩
  rw [← he, List.length_map]
  show r0.length = (normHeaders rf.headers).length
  rw [hal r0 hr0]
  unfold normHeaders
  rw [List.length_map, List.length_map]

theorem mapCol_aligned (i : Nat) (f : Cell → Cell) (fr : Frame) (hal : fr.aligned) :
    (mapCol i f fr).aligned :=
  fun r hr => mapCol_rowLength i f fr fr.headers.length hal r hr

theorem toCells_text_mem (rf : RawFrame) (i : Nat) (r : List PyStr) (hr : r ∈ rf.rows)
    (hlt : i < r.length) :
    Cell.text (r.getD i []) ∈ colCells (toCells rf).rows i := by
  unfold toCells colCells
  exact List.mem_map.mpr ⟨r.map Cell.text, List.mem_map.mpr ⟨r, hr, rfl⟩,
    getD_map_text r i hlt⟩

theorem currency_ne_tds (h : PyStr) (hmem : h ∈ currencyCols) :
    h ≠ codes "tds_applicable" := by
  simp only [currencyCols, List.mem_cons, List.not_mem_nil, or_false] at hmem
  rcases hmem with rfl | rfl | rfl | rfl <;> decide

theorem setColConst_headers_congr (h : PyStr) (v : Cell) (f g : Frame)
    (hh : f.headers = g.headers) :
    (setColConst h v f).headers = (setColConst h v g).headers := by
  unfold setColConst
  rw [hh]
  cases hg : findIdx g.headers h with
  | some i => simp only [hg]
  | none => simp only [hg]

theorem coerceTds_not_coerced (c : Cell) : (coerceTds c).isCoerced = false := by
  cases c with
  | text s =>
    show (match tdsOfStr s with
      | some b => Cell.boolv b
      | none => Cell.nullv).isCoerced = false
    cases tdsOfStr s <;> rfl
  | num q => rfl
  | boolv b => rfl
  | nullv => rfl
  | date y mo d => rfl

theorem toCells_cells (rf : RawFrame) (r : List Cell) (hr : r ∈ (toCells rf).rows)
    (c : Cell) (hc : c ∈ r) : ∃ s, c = Cell.text s := by
  unfold toCells at hr
  rcases List.mem_map.mp hr with ⟨r0, hr0, he⟩
  rw [← he] at hc
  rcases List.mem_map.mp hc with ⟨s, hs, hce⟩
  exact ⟨s, hce.symm⟩

theorem mem_setColConst (h : PyStr) (v : Cell) (fr : Frame) (c : Cell) (r : List Cell)
    (hr : r ∈ (setColConst h v fr).rows) (hc : c ∈ r) :
    (∃ r0 ∈ fr.rows, c ∈ r0) ∨ c = v := by
  unfold setColConst at hr
  split at hr
  · rename_i i hfi
    rcases List.mem_map.mp hr with ⟨r0, hr0, he⟩
    rw [← he] at hc
    rcases mem_modifyAt i _ r0 c hc with h1 | ⟨a, ha, hce⟩
    · exact Or.inl ⟨r0, hr0, h1⟩
    · exact Or.inr hce
  · rcases List.mem_map.mp hr with ⟨r0, hr0, he⟩
    rw [← he] at hc
    rcases List.mem_append.mp hc with h1 | h1
    · exact Or.inl ⟨r0, hr0, h1⟩
    · exact Or.inr (by simpa using h1)

theorem cliTransform_month (rf : RawFrame) (m : PyStr) (hal : rf.aligned) :
    (cliTransform rf m).col (codes "month")
      = some (List.replicate rf.rows.length (Cell.text m)) := by
  unfold cliTransform
  have half1 : (match findIdx (toCells rf).headers (codes "tds_applicable") with
      | some i => mapCol i coerceTds (toCells rf)
      | none => toCells rf).aligned := by
    split
    · exact mapCol_aligned _ _ _ (toCells_aligned rf hal)
    · exact toCells_aligned rf hal
  rw [setColConst_col _ _ _ half1]
  have hlen : (match findIdx (toCells rf).headers (codes "tds_applicable") with
      | some i => mapCol i coerceTds (toCells rf)
      | none => toCells rf).rows.length = rf.rows.length := by
    split
    · simp [mapCol, toCells]
    · simp [toCells]
  rw [hlen]

theorem dashboardTransform_month (rf : RawFrame) (m : PyStr) (fr : Frame)
    (hal : rf.aligned) (hdt : dashboardTransform rf m = Except.ok fr) :
    fr.col (codes "month") = some (List.replicate rf.rows.length (Cell.text m)) := by
  unfold dashboardTransform at hdt
  split at hdt
  · simp at hdt
  · rename_i t htds
    split at hdt
    · simp at hdt
    · rename_i f2 hok
      have he : setColConst (codes "month") (Cell.text m) (dateCoerce f2) = fr := by
        simpa using hdt
      rw [← he]
      have hal1 : (mapCol t coerceTds (toCells rf)).aligned :=
        mapCol_aligned _ _ _ (toCells_aligned rf hal)
      have hlenf2 : ∀ r ∈ f2.rows, r.length = f2.headers.length := by
        intro r hr
        rw [coerceNumericCols_headers _ _ _ hok]
        exact coerceNumericCols_rowLength currencyCols _ f2
          (mapCol t coerceTds (toCells rf)).headers.length hok hal1 r hr
      have hal2 : (dateCoerce f2).aligned := by
        intro r hr
        rw [Frame.aligned] at *
        rw [dateCoerce_headers]
        exact dateCoerce_rowLength f2 _ hlenf2 r hr
      have hcount : (dateCoerce f2).rows.length = rf.rows.length := by
        rw [dateCoerce_rows_length, coerceNumericCols_rows_length _ _ _ hok]
        simp [mapCol, toCells]
      rw [setColConst_col _ _ _ hal2, hcount]

/-! ### Claim C6: currency parsing and batch fatality -/

/-- Claim C6: the currency cell `"1,234.50"` parses to `1234.50`, and any
batch holding a currency cell that is non-numeric after comma removal
makes the dashboard ingestion fail as a whole — the transformation raises,
so the `to_sql` write is never reached and nothing is persisted. -/
theorem currency_parse_and_batch_fatal :
    parseCurrency (codes "1,234.50") = some ((2469 : ℚ) / 2) ∧
    ∀ (rf : RawFrame) (m h : PyStr) (i : Nat) (s : PyStr),
      rf.aligned → h ∈ currencyCols →
      findIdx (normHeaders rf.headers) h = some i →
      (∃ r ∈ rf.rows, r.getD i [] = s) → parseCurrency s = none →
      dashboardSink rf m = none := by
  constructor
  · have h1 : digitsVal (codes "1234") = 1234 := by decide
    have h2 : digitsVal (codes "50") = 50 := by decide
    have h : parseCurrency (codes "1,234.50")
        = some ((digitsVal (codes "1234") : ℚ)
            + (digitsVal (codes "50") : ℚ) / (10 : ℚ) ^ (2 : ℕ)) := rfl
    rw [h, h1, h2]
    norm_num
  · intro rf m h i s hal hmem hidx hcell hbad
    obtain ⟨r, hr, hs⟩ := hcell
    unfold dashboardSink
    cases hdt : dashboardTransform rf m with
    | error e => rfl
    | ok fr2 =>
      exfalso
      unfold dashboardTransform at hdt
      split at hdt
      · simp at hdt
      · rename_i t htds
        split at hdt
        · simp at hdt
        · rename_i f2 hok
          have hne : i ≠ t := by
            intro hit
            subst hit
            exact currency_ne_tds h hmem
              ((findIdx_getD _ _ _ hidx).symm.trans (findIdx_getD _ _ _ htds))
          refine coerceNumericCols_bad currencyCols (mapCol t coerceTds (toCells rf)) h i
            (Cell.text s) hmem hidx ?_ hbad f2 hok
          rw [mapCol_colCells_ne t i coerceTds (toCells rf) hne, ← hs]
          refine toCells_text_mem rf i r hr ?_
          rw [hal r hr]
          have := findIdx_lt_length _ _ _ hidx
          unfold normHeaders at this
          simpa using this

theorem currency_parse_and_batch_fatal_witness :
    dashboardSink rf3 (codes "2025-04") = none :=
  currency_parse_and_batch_fatal.2 rf3 (codes "2025-04") (codes "amount") 0 (codes "abc")
    (by decide) (by decide) (by decide) ⟨[codes "abc", codes "Yes"], by decide, by decide⟩
    (by decide)

/-! ### Claim C9: month tagging -/

/-- Claim C9 counterexample: the CLI proceeds to ingestion and to the
store write with an explicitly empty month tag — `sys.argv` has the right
length when the month argument is the empty string, and no non-emptiness
check exists, so the month is not validated as non-empty at both entry
points. -/
theorem cli_accepts_empty_month :
    (cliRun ⟨some (codes "postgres://db"),
      [codes "upload_payouts.py", codes "payouts.csv", []], true, rf1, true⟩).written
      = some (cliTransform rf1 []) := by
  decide

/-- Claim C9 amended: after ingestion every record carries the supplied
month tag, attached uniformly to all records and overwriting any prior
value, at both entry points; the dashboard validates the month as
non-empty before ingesting, while the CLI only checks that the argument is
present, so an empty month string is accepted there and ingestion
proceeds. -/
theorem month_tag_amended :
    (∀ (rf : RawFrame) (m : PyStr), rf.aligned →
      (cliTransform rf m).col (codes "month")
        = some (List.replicate rf.rows.length (Cell.text m))) ∧
    (∀ (rf : RawFrame) (m : PyStr) (fr : Frame), rf.aligned →
      dashboardTransform rf m = Except.ok fr →
      fr.col (codes "month") = some (List.replicate rf.rows.length (Cell.text m))) ∧
    (∀ (rf : RawFrame) (sinkOk : Bool),
      dashboardSubmit (some rf) [] sinkOk = DashOutcome.inputError) ∧
    (∀ (url scr file : PyStr) (rf : RawFrame), url ≠ [] →
      (cliRun ⟨some url, [scr, file, []], true, rf, true⟩).written
        = some (cliTransform rf [])) := by
  refine ⟨cliTransform_month, dashboardTransform_month, fun rf sinkOk => rfl, ?_⟩
  intro url scr file rf hurl
  unfold cliRun
  simp [hurl]

theorem month_tag_amended_witness :
    (cliTransform rf1 (codes "2025-04")).col (codes "month")
      = some (List.replicate rf1.rows.length (Cell.text (codes "2025-04"))) ∧
    (cliRun ⟨some (codes "postgres://db"),
      [codes "upload_payouts.py", codes "payouts.csv", []], true, rf2, true⟩).written
      = some (cliTransform rf2 []) :=
  ⟨month_tag_amended.1 rf1 (codes "2025-04") (by decide),
    month_tag_amended.2.2.2 (codes "postgres://db") (codes "upload_payouts.py")
      (codes "payouts.csv") rf2 (by decide)⟩

/-! ### Claim C10: missing tds_applicable column -/

/-- Claim C10: a batch whose headers contain no column normalizing to
`tds_applicable` makes the dashboard upload fail with an error, because
the boolean-coercion step accesses `df["tds_applicable"]` unconditionally;
the CLI guards the access with a membership test and accepts such a batch,
proceeding all the way to the store write. -/
theorem dashboard_requires_tds_column :
    (∀ (rf : RawFrame) (m : PyStr), codes "tds_applicable" ∉ normHeaders rf.headers →
      dashboardTransform rf m = Except.error IngestError.missingColumn) ∧
    (∀ i : CliInput, (∃ u, i.dbUrl = some u ∧ u ≠ []) → i.argv.length = 3 →
      i.fileExists = true → i.sinkOk = true →
      (cliRun i).written = some (cliTransform i.csv (i.argv.getD 2 []))) := by
  constructor
  · intro rf m hnot
    unfold dashboardTransform
    have hnone : findIdx (toCells rf).headers (codes "tds_applicable") = none :=
      (findIdx_eq_none_iff _ _).mpr hnot
    simp only [hnone]
  · rintro i ⟨u, hu, hune⟩ hlen hfile hsink
    unfold cliRun
    rw [hu]
    simp [hune, hlen, hfile, hsink]

theorem dashboard_requires_tds_column_witness :
    dashboardTransform rf4 (codes "2025-04") = Except.error IngestError.missingColumn ∧
    (cliRun ⟨some (codes "postgres://db"),
      [codes "upload_payouts.py", codes "payouts.csv", codes "2025-04"],
      true, rf4, true⟩).written
      = some (cliTransform rf4 (codes "2025-04")) :=
  ⟨dashboard_requires_tds_column.1 rf4 (codes "2025-04") (by decide),
    dashboard_requires_tds_column.2
      ⟨some (codes "postgres://db"),
        [codes "upload_payouts.py", codes "payouts.csv", codes "2025-04"], true, rf4, true⟩
      ⟨codes "postgres://db", rfl, by decide⟩ (by decide) rfl rfl⟩

/-! ### Claim C1: the two entry points do not share the Type Coercer -/

/-- Claim C1 counterexample: on a concrete batch the dashboard pipeline
succeeds but produces a different frame than the CLI pipeline — the
dashboard parses the amount cell to a number while the CLI leaves the
text — so the two entry points do not apply the same transformation. -/
theorem cli_dashboard_pipeline_counterexample :
    (dashboardSink rf1 (codes "2025-04")).isSome = true ∧
    dashboardSink rf1 (codes "2025-04") ≠ some (cliTransform rf1 (codes "2025-04")) := by
  decide

/-- Claim C1 amended: the two entry points share the header normalization,
rename table, boolean coercion and month tagging (on dashboard success the
resulting headers coincide), but the CLI performs no Type Coercer currency
or date step: no cell of its output is ever a parsed number or date. -/
theorem cli_dashboard_amended :
    (∀ (rf : RawFrame) (m : PyStr) (fr : Frame), dashboardTransform rf m = Except.ok fr →
      fr.headers = (cliTransform rf m).headers) ∧
    (∀ (rf : RawFrame) (m : PyStr) (r : List Cell), r ∈ (cliTransform rf m).rows →
      ∀ c ∈ r, c.isCoerced = false) := by
  constructor
  · intro rf m fr hdt
    unfold dashboardTransform at hdt
    split at hdt
    · simp at hdt
    · rename_i t htds
      split at hdt
      · simp at hdt
      · rename_i f2 hok
        have he : setColConst (codes "month") (Cell.text m) (dateCoerce f2) = fr := by
          simpa using hdt
        rw [← he]
        unfold cliTransform
        simp only [htds]
        apply setColConst_headers_congr
        rw [dateCoerce_headers, coerceNumericCols_headers _ _ _ hok]
  · intro rf m r hr c hc
    unfold cliTransform at hr
    rcases mem_setColConst _ _ _ c r hr hc with ⟨r0, hr0, hc0⟩ | rfl
    · split at hr0
      · rename_i t htds
        rcases List.mem_map.mp hr0 with ⟨r1, hr1, he⟩
        rw [← he] at hc0
        rcases mem_modifyAt t coerceTds r1 c hc0 with h1 | ⟨a, ha, hce⟩
        · rcases toCells_cells rf r1 hr1 c h1 with ⟨s, rfl⟩
          rfl
        · rw [hce]
          exact coerceTds_not_coerced a
      · rcases toCells_cells rf r0 hr0 c hc0 with ⟨s, rfl⟩
        rfl
    · rfl

theorem cli_dashboard_amended_witness :
    (⟨[codes "tds_applicable", codes "month"],
        [[Cell.boolv true, Cell.text (codes "2025-04")]]⟩ : Frame).headers
      = (cliTransform rf2 (codes "2025-04")).headers ∧
    (Cell.text (codes "1,234.50")).isCoerced = false :=
  ⟨cli_dashboard_amended.1 rf2 (codes "2025-04")
      ⟨[codes "tds_applicable", codes "month"],
        [[Cell.boolv true, Cell.text (codes "2025-04")]]⟩ rfl,
    cli_dashboard_amended.2 rf1 (codes "2025-04")
      [Cell.text (codes "1,234.50"), Cell.boolv true, Cell.text (codes "2025-04")]
      (by decide) (Cell.text (codes "1,234.50")) (by decide)⟩

end FinanceTracker
